import Mathlib

/-!
Verification development for the TTourney group scheduling and ranking engine.

Each Python entity of `src/ttourney/models` that the checked claims touch is
shallowly embedded below: pure methods become Lean functions, fallible code
returns `Except String`, and Python attribute errors (assigning to a
getter-only property, reading a never-assigned attribute, calling an
undefined method) are modelled as `Except.error` at the exact program point
where CPython would raise.  Machine integers are `Nat`/`Int` (Python ints are
unbounded, so no wrap-around modelling is needed).
-/

/-- Result of one table-tennis set: the two point scores.  Embeds the Python
dataclass `Set` of `models/match.py` (named `GameSet` here to avoid clashing
with the ambient `Set` type). -/
structure GameSet where
  points1 : Nat
  points2 : Nat
deriving DecidableEq, Repr

/-- `Set.is_valid` (match.py lines 48-54): valid iff one side has at least 11
points and leads by at least 2. -/
def GameSet.is_valid (s : GameSet) : Bool :=
  if 11 ≤ s.points1 ∧ s.points2 + 2 ≤ s.points1 then true
  else if 11 ≤ s.points2 ∧ s.points1 + 2 ≤ s.points2 then true
  else false

/-- `Set.winner` (match.py lines 56-61): raises `ValueError` when the set is
not valid, otherwise returns 1 if side 1 has more points, else 2. -/
def GameSet.winner (s : GameSet) : Except String Nat :=
  if s.is_valid = false then Except.error "Set is not finished"
  else if s.points2 < s.points1 then Except.ok 1 else Except.ok 2

/-- Projection of the Python `Player` dataclass of `models/player.py` onto the
two fields the match and group code reads: the stable identifier and the
numeric rating (`score`).  (The full dynamically-typed record, needed for the
serialization claim, is embedded separately as `PyPlayer`.) -/
structure Player where
  id : String
  score : Int
deriving DecidableEq, Repr

/-- The Python dataclass `Match` of `models/match.py`: two competitor
references, the round, the ordered set list, and the derived (stored, not
recomputed-on-read) fields `result`, `winner`, `looser`, plus the id

assembled by `__post_init__`. -/
structure Match where
  player1 : Player
  player2 : Player
  round : Int
  sets : List GameSet
  result : Option (Nat × Nat)
  winner : Option String
  looser : Option String
  id : String
deriving DecidableEq, Repr

/-- `Match.__init__` + `__post_init__` with `sets=None` (the only form every
code path in the repository uses): empty set list, derived fields `None`,
id = "player1.id:player2.id". -/
def mkMatch (p1 p2 : Player) (round : Int) : Match :=
  { player1 := p1, player2 := p2, round := round, sets := [],
    result := none, winner := none, looser := none,
    id := p1.id ++ ":" ++ p2.id }

/-- `sum(1 for s in self.sets if s.winner == side)` (match.py lines 123-124).
Evaluating `s.winner` raises when a stored set is invalid, so the sum is
fallible. -/
def setsWinsE (sets : List GameSet) (side : Nat) : Except String Nat :=
  match sets with
  | [] => Except.ok 0
  | s :: rest => do
      let w ← s.winner
      let n ← setsWinsE rest side
      Except.ok (n + if w = side then 1 else 0)

/-- Specification-side win counter: number of sets whose higher-scoring side
is `side`.  Agrees with `setsWinsE` on lists of valid sets
(`setsWinsE_eq_winsOf`). -/
def winsOf (sets : List GameSet) (side : Nat) : Nat :=
  sets.countP (fun s => decide ((if s.points2 < s.points1 then 1 else 2) = side))

/-- `Match._update_result` (match.py lines 115-135): with no sets, clear the
derived fields; otherwise store `(wins_p1, wins_p2)` and derive
winner/looser from whichever side leads. -/
def Match.update_result (m : Match) : Except String Match :=
  if m.sets.isEmpty then
    Except.ok { m with result := none, winner := none, looser := none }
  else do
    let wins_p1 ← setsWinsE m.sets 1
    let wins_p2 ← setsWinsE m.sets 2
    if wins_p2 < wins_p1 then
      Except.ok { m with result := some (wins_p1, wins_p2),
                         winner := some m.player1.id, looser := some m.player2.id }
    else if wins_p1 < wins_p2 then
      Except.ok { m with result := some (wins_p1, wins_p2),
                         winner := some m.player2.id, looser := some m.player1.id }
    else
      Except.ok { m with result := some (wins_p1, wins_p2),
                         winner := none, looser := none }

/-- Error text of `raise ValueError(f"Invalid set result: {set_}")`. -/
def invalidSetMsg (s : GameSet) : String :=
  "Invalid set result: " ++ toString s.points1 ++ ":" ++ toString s.points2

/-- `Match.add_set` (match.py lines 101-107), for a score that already parsed
to a `Set`: reject invalid sets before mutating, otherwise append and
recompute the derived result.  In the Python source the `raise` happens
before the `append`, so the error branch leaves the match untouched, which
the pure embedding reflects by returning no new state on `Except.error`. -/
def Match.add_set (m : Match) (s : GameSet) : Except String Match :=
  if s.is_valid = false then Except.error (invalidSetMsg s)
  else Match.update_result { m with sets := m.sets ++ [s] }

/-- `Match.is_completed` (match.py lines 144-146): `bool(self.winner)` —
false on `None` and on the empty string, true on any other id. -/
def Match.is_completed (m : Match) : Bool :=
  match m.winner with
  | none => false
  | some w => !w.isEmpty

/-- Derived winner id the way `_update_result` computes it from a set list. -/
def matchWinnerSpec (m : Match) (ss : List GameSet) : Option String :=
  if winsOf ss 2 < winsOf ss 1 then some m.player1.id
  else if winsOf ss 1 < winsOf ss 2 then some m.player2.id
  else none

/-- Derived looser id the way `_update_result` computes it from a set list. -/
def matchLooserSpec (m : Match) (ss : List GameSet) : Option String :=
  if winsOf ss 2 < winsOf ss 1 then some m.player2.id
  else if winsOf ss 1 < winsOf ss 2 then some m.player1.id
  else none

/-- Sample players used for concrete witnesses and counterexamples. -/
def pA : Player := { id := "a", score := 1500 }

def pB : Player := { id := "b", score := 1400 }

def pC : Player := { id := "c", score := 1300 }

theorem setsWinsE_eq_winsOf (sets : List GameSet) (side : Nat)
    (h : ∀ t ∈ sets, t.is_valid = true) :
    setsWinsE sets side = Except.ok (winsOf sets side) := by
  induction sets with
  | nil => rfl
  | cons s rest ih =>
      have hs : s.is_valid = true := h s (List.mem_cons_self s rest)
      have hr : ∀ t ∈ rest, t.is_valid = true := fun t ht => h t (List.mem_cons_of_mem s ht)
      have hw : s.winner = Except.ok (if s.points2 < s.points1 then 1 else 2) := by
        simp [GameSet.winner, hs]
        split <;> rfl
      simp only [setsWinsE, hw, ih hr, winsOf, List.countP_cons]
      simp only [bind, Except.bind]
      congr 1
      by_cases hside : (if s.points2 < s.points1 then 1 else 2) = side <;> simp [hside, winsOf]

theorem setsWinsE_ok_valid (sets : List GameSet) (side : Nat) (w : Nat)
    (h : setsWinsE sets side = Except.ok w) : ∀ t ∈ sets, t.is_valid = true := by
  induction sets generalizing w with
  | nil => intro t ht; cases ht
  | cons s rest ih =>
      intro t ht
      by_cases hs : s.is_valid = true
      · rcases List.mem_cons.mp ht with h1 | h2
        · rw [h1]; exact hs
        · have hw : s.winner = Except.ok (if s.points2 < s.points1 then 1 else 2) := by
            simp [GameSet.winner, hs]
            split <;> rfl
          simp only [setsWinsE, hw, bind, Except.bind] at h
          cases hrest : setsWinsE rest side with
          | error e => rw [hrest] at h; cases h
          | ok n => exact ih n hrest t h2
      · exfalso
        have hw : s.winner = Except.error "Set is not finished" := by
          simp [GameSet.winner]
          intro hc; exact absurd hc hs
        simp only [setsWinsE, hw, bind, Except.bind] at h
        cases h

/-- Claim C3: for all non-negative point scores (a, b), the set is valid iff
(a ≥ 11 and a ≥ b+2) or (b ≥ 11 and b ≥ a+2); reading the winner errors
exactly when the set is invalid and otherwise returns the higher-scoring
side (1 when a > b, 2 when b > a; validity excludes a = b). -/
theorem claim_C3 (a b : Nat) :
    GameSet.is_valid { points1 := a, points2 := b } =
      decide ((11 ≤ a ∧ b + 2 ≤ a) ∨ (11 ≤ b ∧ a + 2 ≤ b)) ∧
    GameSet.winner { points1 := a, points2 := b } =
      (if GameSet.is_valid { points1 := a, points2 := b } = true then
        Except.ok (if b < a then 1 else 2)
       else Except.error "Set is not finished") ∧
    (GameSet.is_valid { points1 := a, points2 := b } && decide (a = b)) = false := by
  refine ⟨?_, ?_, ?_⟩
  · by_cases hA : 11 ≤ a ∧ b + 2 ≤ a <;> by_cases hB : 11 ≤ b ∧ a + 2 ≤ b <;>
      simp [GameSet.is_valid, hA, hB]
  · by_cases hv : GameSet.is_valid { points1 := a, points2 := b } = true
    · simp only [GameSet.winner, hv, if_true]
      simp only [Bool.true_eq_false, if_false]
      split <;> rfl
    · simp only [Bool.not_eq_true] at hv
      simp [GameSet.winner, hv]
  · by_cases hv : GameSet.is_valid { points1 := a, points2 := b } = true
    · have : ¬ (a = b) := by
        simp only [GameSet.is_valid] at hv
        by_cases hA : 11 ≤ a ∧ b + 2 ≤ a
        · omega
        · by_cases hB : 11 ≤ b ∧ a + 2 ≤ b
          · omega
          · simp [hA, hB] at hv
      simp [hv, this]
    · simp only [Bool.not_eq_true] at hv
      simp [hv]

/-- Claim C1, counterexample: the original claim says `is_completed` holds iff
one side has reached 3 set wins.  Adding the single valid set 11:0 to a fresh
match already makes `is_completed` true, while the race-to-3 condition
`3 ≤ wins1 or 3 ≤ wins2` is still false (wins are (1, 0)). -/
theorem claim_C1_counterexample :
    ((mkMatch pA pB 1).add_set { points1 := 11, points2 := 0 }).map
      (fun m => (m.is_completed, m.result,
        decide (3 ≤ winsOf m.sets 1 ∨ 3 ≤ winsOf m.sets 2))) =
    Except.ok (true, some (1, 0), false) := by rfl

/-- Claim C1 as amended: on any self-consistent match (a fixed point of
`_update_result`, which every match produced by `add_set`/`set_sets` is)
whose competitors have non-empty ids, `is_completed` is true iff the two
set-win counts differ — i.e. iff a winner is derived, not iff a side has
reached 3 set wins. -/
theorem claim_C1 (m : Match) (hfix : m.update_result = Except.ok m)
    (h1 : m.player1.id ≠ "") (h2 : m.player2.id ≠ "") :
    m.is_completed = decide (winsOf m.sets 1 ≠ winsOf m.sets 2) := by
  by_cases he : m.sets.isEmpty
  · have hnil : m.sets = [] := List.isEmpty_iff.mp he
    simp only [Match.update_result, he, if_true] at hfix
    have hrec := Except.ok.inj hfix
    have hw : m.winner = none := by
      have := congrArg Match.winner hrec
      simpa using this.symm
    simp [Match.is_completed, hw, hnil, winsOf]
  · simp only [Match.update_result, he, if_false] at hfix
    cases hw1 : setsWinsE m.sets 1 with
    | error e => simp [hw1, bind, Except.bind] at hfix
    | ok w1 =>
      cases hw2 : setsWinsE m.sets 2 with
      | error e => simp [hw1, hw2, bind, Except.bind] at hfix
      | ok w2 =>
        have hvalid : ∀ t ∈ m.sets, t.is_valid = true := setsWinsE_ok_valid m.sets 1 w1 hw1
        have e1 : w1 = winsOf m.sets 1 := by
          have := (setsWinsE_eq_winsOf m.sets 1 hvalid).symm.trans hw1
          exact (Except.ok.inj this).symm
        have e2 : w2 = winsOf m.sets 2 := by
          have := (setsWinsE_eq_winsOf m.sets 2 hvalid).symm.trans hw2
          exact (Except.ok.inj this).symm
        simp only [hw1, hw2, bind, Except.bind] at hfix
        by_cases hlt : w2 < w1
        · simp only [hlt, if_true] at hfix
          have hw : m.winner = some m.player1.id := by
            have := congrArg Match.winner (Except.ok.inj hfix)
            simpa using this.symm
          have : ¬ m.player1.id.isEmpty := by
            simp only [String.isEmpty_iff]
            exact h1
          simp only [Match.is_completed, hw, this]
          simp only [Bool.not_eq_true] at this
          simp [this]
          omega
        · by_cases hlt2 : w1 < w2
          · simp only [hlt, hlt2, if_true, if_false] at hfix
            have hw : m.winner = some m.player2.id := by
              have := congrArg Match.winner (Except.ok.inj hfix)
              simpa using this.symm
            have : ¬ m.player2.id.isEmpty := by
              simp only [String.isEmpty_iff]
              exact h2
            simp only [Match.is_completed, hw]
            simp only [Bool.not_eq_true] at this
            simp [this]
            omega
          · simp only [hlt, hlt2, if_false] at hfix
            have hw : m.winner = none := by
              have := congrArg Match.winner (Except.ok.inj hfix)
              simpa using this.symm
            have : w1 = w2 := by omega
            simp [Match.is_completed, hw]
            omega

/-- Concrete self-consistent match used to instantiate `claim_C1`. -/
def mC1 : Match :=
  { player1 := pA, player2 := pB, round := 1,
    sets := [{ points1 := 11, points2 := 9 }],
    result := some (1, 0), winner := some "a", looser := some "b",
    id := "a:b" }

theorem claim_C1_witness :
    mC1.is_completed = decide (winsOf mC1.sets 1 ≠ winsOf mC1.sets 2) :=
  claim_C1 mC1 (by rfl) (by decide) (by decide)

/-- Claim C4: for a match whose stored sets are all valid (the invariant every
constructor in the repository maintains), `add_set` errors exactly on an
invalid new set, the error is the `InvalidSetResult` message, and on success
the set is appended with result/winner/looser recomputed from the new set
list in the same operation. -/
theorem claim_C4 (m : Match) (s : GameSet) (hm : ∀ t ∈ m.sets, t.is_valid = true) :
    (m.add_set s).isOk = s.is_valid ∧
    (s.is_valid = false → m.add_set s = Except.error (invalidSetMsg s)) ∧
    (s.is_valid = true →
      m.add_set s = Except.ok
        { m with sets := m.sets ++ [s],
                 result := some (winsOf (m.sets ++ [s]) 1, winsOf (m.sets ++ [s]) 2),
                 winner := matchWinnerSpec m (m.sets ++ [s]),
                 looser := matchLooserSpec m (m.sets ++ [s]) }) := by
  by_cases hv : s.is_valid = true
  · have hall : ∀ t ∈ m.sets ++ [s], t.is_valid = true := by
      intro t ht
      rcases List.mem_append.mp ht with h1 | h2
      · exact hm t h1
      · rcases List.mem_singleton.mp h2 with rfl
        exact hv
    have hne : (m.sets ++ [s]).isEmpty = false := by
      simp
    have hupd :
        Match.update_result { m with sets := m.sets ++ [s] } = Except.ok
          { m with sets := m.sets ++ [s],
                   result := some (winsOf (m.sets ++ [s]) 1, winsOf (m.sets ++ [s]) 2),
                   winner := matchWinnerSpec m (m.sets ++ [s]),
                   looser := matchLooserSpec m (m.sets ++ [s]) } := by
      simp only [Match.update_result, hne, if_false,
        setsWinsE_eq_winsOf _ 1 hall, setsWinsE_eq_winsOf _ 2 hall, bind, Except.bind]
      simp only [matchWinnerSpec, matchLooserSpec]
      by_cases hlt : winsOf (m.sets ++ [s]) 2 < winsOf (m.sets ++ [s]) 1
      · simp [hlt]
      · by_cases hlt2 : winsOf (m.sets ++ [s]) 1 < winsOf (m.sets ++ [s]) 2 <;>
          simp [hlt, hlt2]
    refine ⟨?_, ?_, ?_⟩
    · simp only [Match.add_set, hv]
      simp only [Bool.true_eq_false, if_false, hupd, Except.isOk, Except.toBool]
    · intro hc; rw [hc] at hv; cases hv
    · intro _
      simp only [Match.add_set, hv]
      simp only [Bool.true_eq_false, if_false, hupd]
  · simp only [Bool.not_eq_true] at hv
    refine ⟨?_, ?_, ?_⟩
    · simp [Match.add_set, hv, Except.isOk, Except.toBool]
    · intro _; simp [Match.add_set, hv]
    · intro hc; rw [hc] at hv; cases hv

theorem claim_C4_witness :
    ((mkMatch pA pB 1).add_set { points1 := 11, points2 := 9 }).isOk = true ∧
    (mkMatch pA pB 1).add_set { points1 := 5, points2 := 5 } =
      Except.error (invalidSetMsg { points1 := 5, points2 := 5 }) := by
  have h1 := claim_C4 (mkMatch pA pB 1) { points1 := 11, points2 := 9 }
    (by intro t ht; simp [mkMatch] at ht)
  have h2 := claim_C4 (mkMatch pA pB 1) { points1 := 5, points2 := 5 }
    (by intro t ht; simp [mkMatch] at ht)
  exact ⟨h1.1.trans (by decide), h2.2.1 (by decide)⟩

/-- Stable insertion for a descending sort by key, matching the semantics of
Python `list.sort(key=..., reverse=True)`: an element moves past another only
when its key is strictly smaller, so equal keys keep their original order. -/
def insertDescBy (key : α → κ) (ltb : κ → κ → Bool) (x : α) : List α → List α
  | [] => [x]
  | y :: ys => if ltb (key x) (key y) then y :: insertDescBy key ltb x ys else x :: y :: ys

/-- Stable descending sort by key (see `insertDescBy`). -/
def isortDescBy (key : α → κ) (ltb : κ → κ → Bool) : List α → List α
  | [] => []
  | x :: xs => insertDescBy key ltb x (isortDescBy key ltb xs)

/-- Boolean strict order on `Int`, the comparison Python uses for int keys. -/
def intLtB (a b : Int) : Bool := decide (a < b)

theorem length_insertDescBy (key : α → κ) (ltb : κ → κ → Bool) (x : α) (l : List α) :
    (insertDescBy key ltb x l).length = l.length + 1 := by
  induction l with
  | nil => rfl
  | cons y ys ih =>
      simp only [insertDescBy]
      by_cases h : ltb (key x) (key y) <;> simp [h, ih]

theorem length_isortDescBy (key : α → κ) (ltb : κ → κ → Bool) (l : List α) :
    (isortDescBy key ltb l).length = l.length := by
  induction l with
  | nil => rfl
  | cons x xs ih => simp [isortDescBy, length_insertDescBy, ih]

/-- The names `BaseGroup` declares as getter-only `@property` members
(group.py lines 100-135, 287-297, 350-356).  In CPython a property with no
setter is a data descriptor whose `__set__` raises `AttributeError`, so any
`self.<name> = ...` with one of these names fails. -/
def baseGroupPropertyNames : List String :=
  ["players_df", "matches_df", "matches_per_round", "rounds_completed", "current_round",
   "direct_encounter_matrix", "buchholz_scores", "stats", "played_matches", "ranking"]

/-- Error text CPython produces for assigning to a setter-less property. -/
def cannotSetAttr (a : String) : String :=
  "AttributeError: cannot set attribute " ++ a

/-- Instance state of a (hypothetical) `BaseGroup` object: the instance
attribute names assigned so far plus the payloads the claims read.  The
private polars caches `_stats`, `_buchholz_scores`, `_direct_encounter_matrix`
carry no payload here; only the fact of their assignment is tracked. -/
structure BaseGroupObj where
  assigned : List String := []
  name : String := ""
  players : List Player := []
  matchesList : List Match := []
  rankingList : List Player := []
  excluded_matches : List (String × String) := []
deriving Repr

/-- One instance attribute assignment `self.<attr> = ...`: raises when the
class declares `<attr>` as a getter-only property, otherwise records the
assignment and applies the payload update. -/
def pySetAttr (g : BaseGroupObj) (attr : String) (upd : BaseGroupObj → BaseGroupObj) :
    Except String BaseGroupObj :=
  if baseGroupPropertyNames.contains attr then Except.error (cannotSetAttr attr)
  else Except.ok { upd g with assigned := g.assigned ++ [attr] }

/-- `BaseGroup.__init__` (group.py lines 89-98), as the sequence of instance
attribute assignments the constructor performs: name, players (then sorted in
place by score, descending), matches, ranking, excluded_matches and the three
cache dictionaries.  The assignment to `ranking` collides with the getter-only
`ranking` property declared at group.py lines 354-356. -/
def BaseGroup.init (players : List Player) (gname : String) : Except String BaseGroupObj := do
  let g ← pySetAttr {} "name" (fun g => { g with name := gname })
  let g ← pySetAttr g "players" (fun g => { g with players := players })
  let g := { g with players := isortDescBy (fun p : Player => p.score) intLtB g.players }
  let g ← pySetAttr g "matches" (fun g => { g with matchesList := [] })
  let g ← pySetAttr g "ranking" (fun g => { g with rankingList := g.players })
  let g ← pySetAttr g "excluded_matches" (fun g => { g with excluded_matches := [] })
  let g ← pySetAttr g "_stats" (fun g => g)
  let g ← pySetAttr g "_buchholz_scores" (fun g => g)
  let g ← pySetAttr g "_direct_encounter_matrix" (fun g => g)
  Except.ok g

/-- `SwissSystemGroup.__init__` (group.py lines 363-365): `super().__init__`
followed by the `date` assignment (modelled as an opaque string). -/
def SwissSystemGroup.init (players : List Player) (gname : String) (d : String) :
    Except String BaseGroupObj := do
  let g ← BaseGroup.init players gname
  let g ← pySetAttr g "date" (fun g => g)
  Except.ok g

/-- Claim C2: constructing a `BaseGroup` — and hence a `SwissSystemGroup` —
always raises before returning, because `__init__` assigns `self.ranking`
while the class declares `ranking` as a getter-only property.  No group
instance is ever produced, so no group boundary operation is reachable. -/
theorem claim_C2 (players : List Player) (gname : String) (d : String) :
    BaseGroup.init players gname = Except.error (cannotSetAttr "ranking") ∧
    SwissSystemGroup.init players gname d = Except.error (cannotSetAttr "ranking") := by
  constructor
  · rfl
  · rfl

/-- Hypothetical instance state a `SwissSystemGroup` method would run against:
the attributes the pairing code reads.  `round` is `Option Int` because no
code path in the repository (neither `__init__` nor any method) ever assigns
`self.round` before reading it, so in every reachable state it is unassigned
(`none`); reading it then raises `AttributeError`. -/
structure SwissState where
  players : List Player := []
  matchesList : List Match := []
  round : Option Int := none
  excluded_matches : List (String × String) := []
deriving Repr

/-- Error text for reading the never-assigned `self.round`. -/
def attrNoRound : String :=
  "AttributeError: SwissSystemGroup object has no attribute round"

/-- Reading `self.round`: raises when the attribute was never assigned. -/
def pyGetRound (g : SwissState) : Except String Int :=
  match g.round with
  | none => Except.error attrNoRound
  | some r => Except.ok r

/-- `SwissSystemGroup.gen_first_round` (group.py lines 367-376): split the
player list at the midpoint, re-sort the top half by score (descending),
shuffle the bottom half — the random source `random.shuffle` is injected as
the function `shuffle` — then increment `self.round` and append one match
per `zip(top_half, bottom_half)` pair.  `zip` truncates at the shorter list,
and the `self.round += 1` read precedes every append. -/
def SwissSystemGroup.gen_first_round (g : SwissState) (shuffle : List Player → List Player) :
    Except String SwissState := do
  let top_half := isortDescBy (fun p : Player => p.score) intLtB
    (g.players.take (g.players.length / 2))
  let bottom_half := shuffle (g.players.drop (g.players.length / 2))
  let r ← pyGetRound g
  let newMatches := List.zipWith (fun p1 p2 => mkMatch p1 p2 (r + 1)) top_half bottom_half
  Except.ok { g with round := some (r + 1), matchesList := g.matchesList ++ newMatches }

/-- Concrete three-player Swiss state (odd count, `round` never assigned). -/
def g3 : SwissState := { players := [pA, pB, pC] }

/-- Concrete three-player state in the hypothetical world where `self.round`
had been initialised to 0. -/
def g4 : SwissState := { players := [pA, pB, pC], round := some 0 }

/-- Claim C6, counterexample: the claim says the first round pairs top[i] with
shuffled-bottom[i] and gives the odd competitor a bye.  On a 3-player group
the code instead (first conjunct) raises `AttributeError` at `self.round += 1`
— `round` is never initialised — before creating any match; and even with the
round counter patched to 0 (second conjunct) it produces the single match
a-vs-b and drops competitor c from the round entirely: no bye match exists. -/
theorem claim_C6_counterexample :
    SwissSystemGroup.gen_first_round g3 (fun l => l) = Except.error attrNoRound ∧
    SwissSystemGroup.gen_first_round g4 (fun l => l) =
      Except.ok { g4 with round := some 1, matchesList := [mkMatch pA pB 1] } := by
  exact ⟨rfl, rfl⟩

/-- Claim C6 as amended: `gen_first_round` always raises `AttributeError`
(first conjunct; `self.round` is never initialised anywhere in the class)
before creating any match, so no competitor is paired and none receives a
bye.  In the hypothetical state where the round counter exists, it would pair
`top_half[i]` with `shuffled_bottom[i]` via `zip` (second conjunct), creating
exactly `min (n / 2) |shuffled bottom|` two-player matches (third conjunct) —
with an odd competitor count the leftover bottom-half competitor is silently
dropped, not given a bye. -/
theorem claim_C6 (g : SwissState) (shuffle : List Player → List Player) :
    (g.round = none →
      SwissSystemGroup.gen_first_round g shuffle = Except.error attrNoRound) ∧
    (∀ r : Int, g.round = some r →
      SwissSystemGroup.gen_first_round g shuffle =
        Except.ok { g with round := some (r + 1),
                           matchesList := g.matchesList ++
                             List.zipWith (fun p1 p2 => mkMatch p1 p2 (r + 1))
                               (isortDescBy (fun p : Player => p.score) intLtB
                                 (g.players.take (g.players.length / 2)))
                               (shuffle (g.players.drop (g.players.length / 2))) }) ∧
    (∀ r : Int,
      (List.zipWith (fun p1 p2 => mkMatch p1 p2 r)
          (isortDescBy (fun p : Player => p.score) intLtB
            (g.players.take (g.players.length / 2)))
          (shuffle (g.players.drop (g.players.length / 2)))).length =
        min (g.players.length / 2)
          (shuffle (g.players.drop (g.players.length / 2))).length) := by
  refine ⟨?_, ?_, ?_⟩
  · intro h
    simp [SwissSystemGroup.gen_first_round, pyGetRound, h, bind, Except.bind]
  · intro r h
    simp [SwissSystemGroup.gen_first_round, pyGetRound, h, bind, Except.bind]
  · intro r
    rw [List.length_zipWith, length_isortDescBy, List.length_take]
    rw [Nat.min_eq_left (Nat.div_le_self _ _)]

theorem claim_C6_witness :
    SwissSystemGroup.gen_first_round g3 (fun l => l) = Except.error attrNoRound ∧
    SwissSystemGroup.gen_first_round g4 (fun l => l) =
      Except.ok { g4 with round := some 1,
                          matchesList := g4.matchesList ++
                            List.zipWith (fun p1 p2 => mkMatch p1 p2 1)
                              (isortDescBy (fun p : Player => p.score) intLtB
                                (g4.players.take (g4.players.length / 2)))
                              ((fun l => l) (g4.players.drop (g4.players.length / 2))) } :=
  ⟨(claim_C6 g3 (fun l => l)).1 rfl, (claim_C6 g4 (fun l => l)).2.1 0 rfl⟩

/-- Error text for `self.wins(...)` at group.py line 380: neither
`SwissSystemGroup` nor `BaseGroup` defines a method `wins` (the stats helper
is called `_get_wins`), so the first call of the sort key raises. -/
def attrNoWins : String :=
  "AttributeError: SwissSystemGroup object has no attribute wins"

/-- Error text for evaluating `BaseGroup.played_matches`. -/
def playedMatchesErr : String :=
  "TypeError: unhashable type list in _get_played_matches"

/-- Error text for `Match(p1, p2)` at group.py lines 401 and 403: the `Match`
dataclass (match.py lines 85-93) requires the positional argument `round`,
which these two-argument calls omit. -/
def matchArityErr : String :=
  "TypeError: Match missing 1 required positional argument round"

/-- Error text for `p1.id` when `p1` is the `None` dummy. -/
def noneIdErr : String :=
  "AttributeError: NoneType object has no attribute id"

/-- The sort key of `gen_next_round` (group.py line 380): `self.wins(p.id)`.
No such method exists on the class, so the lookup raises unconditionally. -/
def SwissSystemGroup.winsAttr (_g : SwissState) (_pid : String) : Except String Int :=
  Except.error attrNoWins

/-- `BaseGroup._get_played_matches` / the `played_matches` property (group.py
lines 274-285).  The body always raises before returning a set: with no
recorded matches, `matches_df` is a column-less empty DataFrame and the
`filter(pl.col("round") <= round)` fails on the missing column; with recorded
matches, the final expression is a set literal whose single element is a
*list* (`{[...] + [...]}`), and lists are unhashable.  Either way the
property never yields a value. -/
def BaseGroup.played_matchesE (_g : SwissState) : Except String (List (String × String)) :=
  Except.error playedMatchesErr

/-- Key materialization for Python `list.sort(key=...)`: CPython computes the
key of every element (in list order) before comparing, so a raising key
aborts the sort at the first element. -/
def pyMapE (f : α → Except String β) : List α → Except String (List β)
  | [] => Except.ok []
  | a :: l => do
      let b ← f a
      let bs ← pyMapE f l
      Except.ok (b :: bs)

theorem length_eraseIdx_le (l : List α) (i : Nat) : (l.eraseIdx i).length ≤ l.length := by
  induction l generalizing i with
  | nil => simp [List.eraseIdx]
  | cons a t ih =>
      cases i with
      | zero => simp [List.eraseIdx]
      | succ j =>
          simp only [List.eraseIdx, List.length_cons]
          exact Nat.succ_le_succ (ih j)

/-- The opponent scan of `gen_next_round` (group.py lines 392-399): walk the
remaining list, skip falsy (`None`) entries, and return the index of the
first candidate whose pair with `p1` is in neither `played_matches` nor
`excluded_matches`.  Evaluation order matches Python: the candidate truthiness
check short-circuits, then `p1.id` is read (raising on the `None` dummy),
then the `played_matches` property is evaluated (which always raises, see
`BaseGroup.played_matchesE`). -/
def swissFindOppGo (g : SwissState) (p1 : Option Player) :
    List (Option Player) → Nat → Except String (Option Nat)
  | [], _ => Except.ok none
  | cand :: t, i =>
      match cand with
      | none => swissFindOppGo g p1 t (i + 1)
      | some c => do
          let pid ← (match p1 with
            | none => Except.error noneIdErr
            | some p => Except.ok p.id)
          let played ← BaseGroup.played_matchesE g
          if (pid, c.id) ∉ played ∧ (pid, c.id) ∉ g.excluded_matches then
            Except.ok (some i)
          else
            swissFindOppGo g p1 t (i + 1)

/-- The `while len(sorted_players) > 1` pairing loop of `gen_next_round`
(group.py lines 389-403): pop the head, scan for a legal opponent, emit
`Match(p1, p2)` on success or `Match(p1, None)` (a bye) when `p1` is a real
player with no legal opponent; a popped `None` dummy with no opponent emits
nothing.  Both `Match(...)` calls omit the required `round` argument, so each
would raise `TypeError` were they ever reached. -/
def swissPairLoop (g : SwissState) : List (Option Player) → Except String (List Match)
  | [] => Except.ok []
  | [_] => Except.ok []
  | p1 :: rest => do
      let oppIdx ← swissFindOppGo g p1 rest 0
      match oppIdx with
      | some i => do
          let m ← (Except.error matchArityErr : Except String Match)
          let ms ← swissPairLoop g (rest.eraseIdx i)
          Except.ok (m :: ms)
      | none =>
          match p1 with
          | some _ => do
              let m ← (Except.error matchArityErr : Except String Match)
              let ms ← swissPairLoop g rest
              Except.ok (m :: ms)
          | none => swissPairLoop g rest
termination_by l => l.length
decreasing_by
  all_goals
    simp only [List.length_cons]
    first
      | exact Nat.lt_succ_of_le (length_eraseIdx_le rest i)
      | exact Nat.lt_succ_of_le (Nat.le_refl _)

/-- `SwissSystemGroup.gen_next_round` (group.py lines 378-406): copy the
player list, sort it descending by the (nonexistent) `self.wins` key, pad
with a `None` dummy on odd counts, run the pairing loop, extend
`self.matches` and increment the (never-assigned) `self.round`. -/
def SwissSystemGroup.gen_next_round (g : SwissState) : Except String SwissState := do
  let keys ← pyMapE (fun p => SwissSystemGroup.winsAttr g p.id) g.players
  let sorted_players :=
    (isortDescBy (fun pk : Player × Int => pk.2) intLtB (g.players.zip keys)).map Prod.fst
  let n := sorted_players.length
  let padded := if n % 2 = 1 then sorted_players.map some ++ [none] else sorted_players.map some
  let ms ← swissPairLoop g padded
  let r ← pyGetRound g
  Except.ok { g with matchesList := g.matchesList ++ ms, round := some (r + 1) }

/-- Claim C5 (code evaluation): in every reachable state — `self.round` is
never assigned anywhere in the class — `gen_next_round` raises before
returning: with at least one player the `self.wins` sort key raises
`AttributeError` immediately, and with no players the final
`self.round += 1` raises.  No match and no bye is ever generated, and the
played/excluded-pair guard is never exercised. -/
theorem swissPairLoop_nil (g : SwissState) : swissPairLoop g [] = Except.ok [] := by
  unfold swissPairLoop
  rfl

theorem claim_C5 (g : SwissState) (h : g.round = none) :
    ∃ e, SwissSystemGroup.gen_next_round g = Except.error e := by
  cases hp : g.players with
  | nil =>
      refine ⟨attrNoRound, ?_⟩
      simp [SwissSystemGroup.gen_next_round, hp, pyMapE, swissPairLoop_nil, pyGetRound, h,
        isortDescBy, bind, Except.bind]
  | cons p ps =>
      refine ⟨attrNoWins, ?_⟩
      simp [SwissSystemGroup.gen_next_round, hp, pyMapE, SwissSystemGroup.winsAttr,
        bind, Except.bind]

/-- Two-player state (round unassigned, as in every reachable state). -/
def swissG0 : SwissState := { players := [pA, pB] }

theorem claim_C5_witness :
    ∃ e, SwissSystemGroup.gen_next_round swissG0 = Except.error e :=
  claim_C5 swissG0 rfl

/-- Error text of unary minus on the id string: `_get_ranking` binds
`player_score = player.id` and builds `-player_score` into the sort key
(group.py lines 423-425); negating a `str` raises `TypeError`. -/
def typeErrNegStr : String :=
  "TypeError: bad operand type for unary minus: str"

/-- `-player_score` where `player_score` is the id string. -/
def pyNegStr (_s : String) : Except String Int :=
  Except.error typeErrNegStr

/-- Error text for `self._get_matches_until_round(round)` (group.py line
452): no such method exists anywhere in the repository. -/
def attrNoGetMatchesUntil : String :=
  "AttributeError: SwissSystemGroup object has no attribute _get_matches_until_round"

/-- Lexicographic Boolean strict order on 5-tuples of ints, the comparison
Python would use on the sort-key tuples of `_get_ranking`. -/
def tuple5Lt (a b : Int × Int × Int × Int × Int) : Bool :=
  decide (a.1 < b.1) ||
    (decide (a.1 = b.1) &&
      (decide (a.2.1 < b.2.1) ||
        (decide (a.2.1 = b.2.1) &&
          (decide (a.2.2.1 < b.2.2.1) ||
            (decide (a.2.2.1 = b.2.2.1) &&
              (decide (a.2.2.2.1 < b.2.2.2.1) ||
                (decide (a.2.2.2.1 = b.2.2.2.1) &&
                  decide (a.2.2.2.2 < b.2.2.2.2))))))))

/-- The `sort_key` closure of `SwissSystemGroup._get_ranking` (group.py lines
418-425).  The four polars-backed stat lookups (`_get_wins`, the misused
`_get_buchholz_scores`, `_get_set_difference`, `_get_ball_difference`) are
abstracted as oracle parameters `winsO buchO sdO bdO` — whatever values they
produce, building the key tuple then evaluates `-player_score` where
`player_score` is the id *string*, which raises `TypeError`. -/
def swissSortKey (winsO buchO sdO bdO : String → Nat → Int) (round : Nat) (p : Player) :
    Except String (Int × Int × Int × Int × Int) := do
  let wins := winsO p.id round
  let buchholz := buchO p.id round
  let set_diff := sdO p.id round
  let ball_diff := bdO p.id round
  let negScore ← pyNegStr p.id
  Except.ok (wins, buchholz, set_diff, negScore, ball_diff)

/-- The tied-run scan of `_get_ranking` (group.py lines 432-470): find
maximal runs of adjacent players with equal wins and equal Buchholz value;
for a run of length at least 2, evaluating `all_played` calls the
nonexistent `self._get_matches_until_round`, which raises; runs of length 1
leave the order unchanged.  (A run whose members are all *equal* player
records would skip the raising generator, but distinct players always reach
it; the simplification is irrelevant here because the primary sort above
this scan already raises for every non-empty player list.) -/
def swissTieLoop (wB : Player → Int × Int) : List Player → Except String (List Player)
  | [] => Except.ok []
  | [p] => Except.ok [p]
  | p :: q :: rest =>
      if wB p = wB q then Except.error attrNoGetMatchesUntil
      else do
        let tl ← swissTieLoop wB (q :: rest)
        Except.ok (p :: tl)

/-- `SwissSystemGroup._get_ranking` (group.py lines 414-472) with the round
cutoff given explicitly: primary sort of a copy of the player list by
`sort_key` (descending), then the tied-run direct-encounter adjustment. -/
def swissGetRanking (winsO buchO sdO bdO : String → Nat → Int) (players : List Player)
    (round : Nat) : Except String (List Player) := do
  let keys ← pyMapE (swissSortKey winsO buchO sdO bdO round) players
  let sorted :=
    (isortDescBy (fun pk : Player × (Int × Int × Int × Int × Int) => pk.2) tuple5Lt
      (players.zip keys)).map Prod.fst
  swissTieLoop (fun p => (winsO p.id round, buchO p.id round)) sorted

/-- Claim C7 (code evaluation): for every oracle assignment for the stat
lookups, every non-empty player list and every round cutoff, `_get_ranking`
raises `TypeError` while building the first sort key (`-player_score` with
`player_score` bound to the id string), before any tie-run re-sorting can
happen.  The tie-break escalation the claim describes — including its
3-competitor equal-wins/equal-Buchholz scenario — is therefore unreachable:
the function never returns a ranking (the run adjustment would additionally
call the nonexistent `_get_matches_until_round`). -/
theorem claim_C7 (winsO buchO sdO bdO : String → Nat → Int) (p : Player)
    (ps : List Player) (round : Nat) :
    swissGetRanking winsO buchO sdO bdO (p :: ps) round = Except.error typeErrNegStr := by
  simp [swissGetRanking, pyMapE, swissSortKey, pyNegStr, bind, Except.bind]

/-- Player record used for the concrete ranking evaluation. -/
def pAlice : Player := { id := "alice", score := 1500 }

/-- Claim C9 (code evaluation): the claim says the ranking query never fails
and that a zero-round cutoff yields the initial rating order.  Evaluating the
embedded `_get_ranking` on a group holding the single competitor `alice`
with cutoff 0 (no completed rounds) instead yields the `TypeError` raised by
the sort key, for any oracle values (here all-zero) — the ranking boundary
operation fails rather than returning `[alice]`. -/
theorem claim_C9 :
    swissGetRanking (fun _ _ => 0) (fun _ _ => 0) (fun _ _ => 0) (fun _ _ => 0)
      [pAlice] 0 = Except.error typeErrNegStr := by
  rfl

/-- Dynamic Python value for the `Player` fields: `from_dict` passes values
positionally into the wrong parameters (strings into `age`, etc.), so the
embedding must allow any field to hold `None`, a string or an int. -/
inductive PyVal where
  | pyNone : PyVal
  | pyStr : String → PyVal
  | pyInt : Int → PyVal
deriving DecidableEq, Repr

/-- f-string rendering of a value. -/
def PyVal.toDisplay : PyVal → String
  | .pyNone => "None"
  | .pyStr s => s
  | .pyInt n => toString n

/-- Python truthiness. -/
def PyVal.isTruthy : PyVal → Bool
  | .pyNone => false
  | .pyStr s => !s.isEmpty
  | .pyInt n => decide (n ≠ 0)

/-- `value[:k]`: slicing is only defined on strings here; on `None` or an
int CPython raises `TypeError`. -/
def pySlice (v : PyVal) (k : Nat) : Except String String :=
  match v with
  | .pyStr s => Except.ok (s.take k)
  | _ => Except.error "TypeError: value is not subscriptable"

/-- The full `Player` dataclass of `models/player.py`, with dynamically typed
fields (see `PyVal`). -/
structure PyPlayer where
  first_name : PyVal
  last_name : PyVal
  score : PyVal
  start_number : PyVal
  age : PyVal
  gender : PyVal
  club : PyVal
  id : PyVal
  name : PyVal
deriving DecidableEq, Repr

/-- `Player.__init__` + `__post_init__` (player.py lines 7-29), parameters in
the dataclass field order `(first_name, last_name, score, start_number, age,
gender, club, id, name)`.  `__post_init__` always recomputes `name` from
first/last name, and regenerates `id` from name/club plus a random uuid
suffix (injected as the `uuid4` argument) exactly when the passed `id`
equals the empty string. -/
def mkPyPlayer (first_name last_name score start_number age gender club id name : PyVal)
    (uuid4 : String) : Except String PyPlayer := do
  let _ := name
  let name2 := match last_name with
    | .pyNone => first_name
    | _ => PyVal.pyStr (first_name.toDisplay ++ " " ++ last_name.toDisplay)
  if id = PyVal.pyStr "" then do
    let f6 ← pySlice first_name 6
    let l6 ← pySlice last_name 6
    let base := f6 ++ "_" ++ l6
    let base ← (if club.isTruthy then do
        let c12 ← pySlice club 12
        Except.ok (base ++ "_" ++ c12)
      else Except.ok base)
    let base := base ++ "_" ++ uuid4.take 4
    Except.ok { first_name := first_name, last_name := last_name, score := score,
                start_number := start_number, age := age, gender := gender, club := club,
                id := PyVal.pyStr ((base.toLower).replace " " "_"), name := name2 }
  else
    Except.ok { first_name := first_name, last_name := last_name, score := score,
                start_number := start_number, age := age, gender := gender, club := club,
                id := id, name := name2 }

/-- The key/value record `Player.as_dict` produces (player.py lines 34-44);
field `first_name` stands for the key "first name", and so on. -/
structure PlayerDict where
  id : PyVal
  first_name : PyVal
  last_name : PyVal
  start_number : PyVal
  score : PyVal
  age : PyVal
  gender : PyVal
  club : PyVal
deriving DecidableEq, Repr

/-- `Player.as_dict` (player.py lines 34-44). -/
def PyPlayer.as_dict (p : PyPlayer) : PlayerDict :=
  { id := p.id, first_name := p.first_name, last_name := p.last_name,
    start_number := p.start_number, score := p.score, age := p.age,
    gender := p.gender, club := p.club }

/-- `Player.from_dict` (player.py lines 49-60): the eight dictionary values
are passed *positionally* into the nine-parameter constructor, so the 5th
argument `data.get("id", ...)` lands in `age`, `data.get("age")` in
`gender`, `data.get("gender")` in `club` and `data.get("club")` in `id`
(`name` falls back to its `None` default).  All eight keys are always
present in an `as_dict` output, so the uuid default for "id" is dead; the
`uuid4` argument feeds the potential id regeneration in `__post_init__`. -/
def PyPlayer.from_dict (d : PlayerDict) (uuid4 : String) : Except String PyPlayer :=
  mkPyPlayer d.first_name d.last_name d.score d.start_number d.id d.age d.gender d.club
    PyVal.pyNone uuid4

/-- Claim C8 (code evaluation): serialize-then-reconstruct is *not* the
identity.  For the player ("Ann", "Lee", score 100, club "TTC", id "p1"),
`from_dict(as_dict(p))` yields a player whose `age` is the original id
string "p1", whose `id` is the original club "TTC" and whose `club` is
`None` — the positional mix-up in `from_dict` scrambles the fields, so the
reconstruction is not observably equivalent to the original (whose `age` was
`None`, id "p1", club "TTC"). -/
theorem claim_C8 :
    (mkPyPlayer (PyVal.pyStr "Ann") (PyVal.pyStr "Lee") (PyVal.pyInt 100) (PyVal.pyInt 0)
        PyVal.pyNone PyVal.pyNone (PyVal.pyStr "TTC") (PyVal.pyStr "p1") PyVal.pyNone
        "uuuu").bind
      (fun p => (PyPlayer.from_dict p.as_dict "vvvv").map
        (fun q => (decide (q = p), q.age, q.id, q.club, p.age, p.id, p.club))) =
    Except.ok (false, PyVal.pyStr "p1", PyVal.pyStr "TTC", PyVal.pyNone,
      PyVal.pyNone, PyVal.pyStr "p1", PyVal.pyStr "TTC") := by
  rfl

/-- Modelled from the spec: the Berger rotation step.  The executable Berger
generator is missing from the source — `_generate_berger_table_matches`
survives only as a commented-out draft (group.py lines 661-686) and
`BergerTableGroup` is imported by the examples but defined nowhere — so the
rotation is modelled from the algorithm in spec section 4.3, which the draft
matches: remove the last seat and reinsert it at index 1, keeping seat 0
fixed (`players.insert(1, players.pop())`). -/
def bergerRotate (l : List α) : List α :=
  match l with
  | [] => []
  | a :: rest =>
      match rest.getLast? with
      | none => [a]
      | some x => a :: x :: rest.dropLast

/-- Modelled from the spec: one Berger round over the current seating `l` of
the fixed size-`n` line — pair seat `i` with seat `n - 1 - i` for
`i < n / 2`, dropping any pairing that touches the `none` placeholder. -/
def bergerRoundPairs (l : List (Option α)) (n : Nat) : List (α × α) :=
  (List.range (n / 2)).filterMap (fun i =>
    match l.get? i, l.get? (n - 1 - i) with
    | some (some p1), some (some p2) => some (p1, p2)
    | _, _ => none)

/-- Modelled from the spec: build `k` successive Berger rounds, rotating the
seating between rounds. -/
def bergerRoundsGo (n : Nat) : Nat → List (Option α) → List (List (α × α))
  | 0, _ => []
  | k + 1, l => bergerRoundPairs l n :: bergerRoundsGo n k (bergerRotate l)

/-- Modelled from the spec: the full Berger table — pad an odd competitor
list with one `none` placeholder, then generate `n - 1` rounds for the even
seat count `n`. -/
def bergerSchedule (players : List α) : List (List (α × α)) :=
  let padded : List (Option α) :=
    if players.length % 2 = 1 then players.map some ++ [none] else players.map some
  bergerRoundsGo padded.length (padded.length - 1) padded

/-- Position of seat `t` of the rotating block after `r` rotation steps,
as arithmetic in `ZMod m` (`m` = number of rotating seats). -/
def rotVal (m r t : Nat) : Nat := (((t : ZMod m)) - ((r : ZMod m))).val

/-- Closed form of the competitor seated at position `j` after `r` Berger
rotations of the initial seating `0, 1, ..., n-1`: seat 0 is fixed and the
remaining `n - 1` seats rotate cyclically. -/
def bergerEntry (n r j : Nat) : Nat :=
  if j = 0 then 0 else rotVal (n - 1) r (j - 1) + 1

/-- The pair of competitors that round `r`, board `i` of the Berger table on
`0, ..., n-1` produces. -/
def bergerPairFn (n r i : Nat) : Nat × Nat :=
  (bergerEntry n r i, bergerEntry n r (n - 1 - i))

/-- The unordered-pair predicate of claim C10: the match `pr` is between
competitors `a` and `b` (in either order). -/
def PairEq (a b : Nat) (pr : Nat × Nat) : Prop :=
  (pr.1 = a ∧ pr.2 = b) ∨ (pr.1 = b ∧ pr.2 = a)

instance (a b : Nat) (pr : Nat × Nat) : Decidable (PairEq a b pr) := by
  unfold PairEq
  infer_instance

theorem my_get_append_left (l1 l2 : List α) (k : Nat) (h : k < l1.length) :
    (l1 ++ l2).get? k = l1.get? k := by
  induction l1 generalizing k with
  | nil => simp at h
  | cons a t ih =>
      cases k with
      | zero => rfl
      | succ j =>
          simp only [List.length_cons] at h
          exact ih j (by omega)

theorem my_get_concat_length (l : List α) (x : α) : (l ++ [x]).get? l.length = some x := by
  induction l with
  | nil => rfl
  | cons a t ih => exact ih

theorem my_get_last (l : List α) (h : l ≠ []) : l.get? (l.length - 1) = l.getLast? := by
  induction l with
  | nil => exact absurd rfl h
  | cons a t ih =>
      cases ht : t with
      | nil => rfl
      | cons b u =>
          rw [← ht]
          have htne : t ≠ [] := by rw [ht]; simp
          have h1 : (a :: t).length - 1 = (t.length - 1) + 1 := by
            have : 1 ≤ t.length := List.length_pos.mpr htne
            simp only [List.length_cons]
            omega
          rw [h1]
          show t.get? (t.length - 1) = (a :: t).getLast?
          rw [ih htne, ht]
          rw [List.getLast?_cons_cons]

theorem my_get_dropLast (l : List α) (h : l ≠ []) (k : Nat) (hk : k < l.dropLast.length) :
    l.dropLast.get? k = l.get? k := by
  conv_rhs => rw [← List.dropLast_append_getLast h]
  rw [my_get_append_left _ _ k hk]

theorem bergerRotate_length (l : List α) : (bergerRotate l).length = l.length := by
  cases l with
  | nil => rfl
  | cons a rest =>
      cases hres : rest.getLast? with
      | none =>
          have hnil : rest = [] := by
            cases rest with
            | nil => rfl
            | cons b t =>
                rw [List.getLast?_eq_getLast (b :: t) (by simp)] at hres
                cases hres
          simp [bergerRotate, hnil]
      | some x =>
          have hne : rest ≠ [] := by
            intro hc
            rw [hc] at hres
            cases hres
          have hrpos : 1 ≤ rest.length := List.length_pos.mpr hne
          simp only [bergerRotate, hres, List.length_cons, List.length_dropLast]
          omega

theorem bergerRotate_get (l : List α) (hl : 2 ≤ l.length) (j : Nat) (hj : j < l.length) :
    (bergerRotate l).get? j =
      l.get? (if j = 0 then 0 else if j = 1 then l.length - 1 else j - 1) := by
  cases l with
  | nil => simp at hl
  | cons a rest =>
    have hne : rest ≠ [] := by
      intro hc
      rw [hc] at hl
      simp at hl
    have hres : rest.getLast? = some (rest.getLast hne) := List.getLast?_eq_getLast rest hne
    have hrot : bergerRotate (a :: rest) = a :: rest.getLast hne :: rest.dropLast := by
      simp [bergerRotate, hres]
    have hlen : rest.dropLast.length = rest.length - 1 := List.length_dropLast rest
    have hrpos : 1 ≤ rest.length := List.length_pos.mpr hne
    rw [hrot]
    match j with
    | 0 => rfl
    | 1 =>
        have h1 : (a :: rest).length - 1 = (rest.length - 1) + 1 := by
          simp only [List.length_cons]
          omega
        simp only [if_neg (by omega : (1 : Nat) ≠ 0), if_pos rfl, h1]
        show some (rest.getLast hne) = rest.get? (rest.length - 1)
        rw [my_get_last rest hne, hres]
    | (k + 2) =>
        simp only [List.length_cons] at hj
        have hk : k < rest.dropLast.length := by omega
        have h2 : (if (k + 2 : Nat) = 0 then 0 else if (k + 2 : Nat) = 1
            then (a :: rest).length - 1 else k + 2 - 1) = k + 1 := by
          simp
        rw [h2]
        show rest.dropLast.get? k = rest.get? k
        exact my_get_dropLast rest hne k hk

theorem bergerRotate_iter_length (l : List α) (r : Nat) :
    (bergerRotate^[r] l).length = l.length := by
  induction r with
  | zero => rfl
  | succ r ih =>
      rw [Function.iterate_succ_apply', bergerRotate_length, ih]

theorem zmod_val_cast_of_lt (m t : Nat) (h : t < m) : ((t : ZMod m)).val = t := by
  haveI : NeZero m := ⟨by omega⟩
  rw [ZMod.val_natCast]
  exact Nat.mod_eq_of_lt h

theorem zmod_cast_val (m : Nat) (hm : 1 ≤ m) (x : ZMod m) : ((x.val : Nat) : ZMod m) = x := by
  haveI : NeZero m := ⟨by omega⟩
  exact ZMod.natCast_rightInverse x

theorem bergerEntry_lt (n r j : Nat) (hn : 2 ≤ n) (hj : j < n) : bergerEntry n r j < n := by
  unfold bergerEntry
  by_cases h0 : j = 0
  · simp [h0]
    omega
  · haveI : NeZero (n - 1) := ⟨by omega⟩
    simp only [h0, if_false]
    have := ZMod.val_lt (((j - 1 : Nat) : ZMod (n - 1)) - ((r : Nat) : ZMod (n - 1)))
    unfold rotVal
    omega

theorem bergerEntry_pos (n r j : Nat) (hj : 1 ≤ j) : 1 ≤ bergerEntry n r j := by
  unfold bergerEntry
  simp only [if_neg (by omega : ¬ j = 0)]
  omega

theorem bergerEntry_le (n r j : Nat) (hn : 2 ≤ n) (hj : 1 ≤ j) : bergerEntry n r j ≤ n - 1 := by
  haveI : NeZero (n - 1) := ⟨by omega⟩
  unfold bergerEntry
  simp only [if_neg (by omega : ¬ j = 0)]
  unfold rotVal
  have := ZMod.val_lt (((j - 1 : Nat) : ZMod (n - 1)) - ((r : Nat) : ZMod (n - 1)))
  omega

theorem bergerEntry_cast (n r j : Nat) (hn : 2 ≤ n) (hj : 1 ≤ j) :
    ((bergerEntry n r j - 1 : Nat) : ZMod (n - 1)) =
      ((j - 1 : Nat) : ZMod (n - 1)) - (r : ZMod (n - 1)) := by
  unfold bergerEntry rotVal
  simp only [if_neg (by omega : ¬ j = 0), Nat.add_sub_cancel]
  exact zmod_cast_val (n - 1) (by omega) _

theorem bergerEntry_base (n j : Nat) (hn : 2 ≤ n) (hj : j < n) : bergerEntry n 0 j = j := by
  unfold bergerEntry rotVal
  by_cases h0 : j = 0
  · simp [h0]
  · simp only [h0, if_false, Nat.cast_zero, sub_zero]
    rw [zmod_val_cast_of_lt (n - 1) (j - 1) (by omega)]
    omega

theorem bergerEntry_succ_one (n r : Nat) (hn : 2 ≤ n) :
    bergerEntry n (r + 1) 1 = bergerEntry n r (n - 1) := by
  unfold bergerEntry rotVal
  simp only [if_neg (by omega : ¬ (1 : Nat) = 0), if_neg (by omega : ¬ n - 1 = 0)]
  congr 1
  congr 1
  have h1 : ((n - 1 - 1 : Nat) : ZMod (n - 1)) = ((n - 1 : Nat) : ZMod (n - 1)) - 1 := by
    have : ((n - 1 - 1 : Nat) : ZMod (n - 1)) = ((n - 1 : Nat) : ZMod (n - 1)) - (1 : Nat) :=
      Nat.cast_sub (by omega : 1 ≤ n - 1)
    simpa using this
  rw [h1, ZMod.natCast_self]
  push_cast
  ring

theorem bergerEntry_succ_ge2 (n r j : Nat) (hn : 2 ≤ n) (hj : 2 ≤ j) :
    bergerEntry n (r + 1) j = bergerEntry n r (j - 1) := by
  unfold bergerEntry rotVal
  simp only [if_neg (by omega : ¬ j = 0), if_neg (by omega : ¬ j - 1 = 0)]
  congr 1
  congr 1
  have h1 : j - 1 = (j - 1 - 1) + 1 := by omega
  rw [h1]
  push_cast
  ring

theorem bergerEntry_iter_get (n : Nat) (hn : 2 ≤ n) (r : Nat) :
    ∀ j, j < n →
      (bergerRotate^[r] ((List.range n).map some)).get? j =
        some (some (bergerEntry n r j)) := by
  induction r with
  | zero =>
      intro j hj
      simp only [Function.iterate_zero_apply]
      rw [List.get?_map, List.get?_range hj, bergerEntry_base n j hn hj]
      rfl
  | succ r ih =>
      intro j hj
      have hlen : (bergerRotate^[r] ((List.range n).map some)).length = n := by
        rw [bergerRotate_iter_length, List.length_map, List.length_range]
      rw [Function.iterate_succ_apply']
      rw [bergerRotate_get _ (by omega) j (by omega)]
      rw [hlen]
      by_cases h0 : j = 0
      · subst h0
        have hidx : (if (0 : Nat) = 0 then (0 : Nat) else if (0 : Nat) = 1 then n - 1
            else 0 - 1) = 0 := by norm_num
        rw [hidx, ih 0 (by omega)]
        rfl
      · by_cases h1 : j = 1
        · subst h1
          have hidx : (if (1 : Nat) = 0 then (0 : Nat) else if (1 : Nat) = 1 then n - 1
              else 1 - 1) = n - 1 := by norm_num
          rw [hidx, ih (n - 1) (by omega), bergerEntry_succ_one n r hn]
        · simp only [h0, h1, if_false]
          rw [ih (j - 1) (by omega), bergerEntry_succ_ge2 n r j hn (by omega)]

theorem my_filterMap_eq_map (l : List γ) (f : γ → Option δ) (g : γ → δ)
    (h : ∀ x ∈ l, f x = some (g x)) : l.filterMap f = l.map g := by
  induction l with
  | nil => rfl
  | cons a t ih =>
      rw [List.filterMap_cons, h a (List.mem_cons_self a t), List.map_cons,
        ih (fun x hx => h x (List.mem_cons_of_mem a hx))]

theorem bergerRoundPairs_iter (n : Nat) (hn : 2 ≤ n) (r : Nat) :
    bergerRoundPairs (bergerRotate^[r] ((List.range n).map some)) n =
      (List.range (n / 2)).map (bergerPairFn n r) := by
  unfold bergerRoundPairs
  apply my_filterMap_eq_map
  intro i hi
  have hi2 : i < n / 2 := List.mem_range.mp hi
  have hiLt : i < n := by omega
  have hi3 : n - 1 - i < n := by omega
  rw [bergerEntry_iter_get n hn r i hiLt, bergerEntry_iter_get n hn r (n - 1 - i) hi3]
  rfl

theorem bergerRoundsGo_eq (n k : Nat) (l : List (Option γ)) :
    bergerRoundsGo n k l =
      (List.range k).map (fun t => bergerRoundPairs (bergerRotate^[t] l) n) := by
  induction k generalizing l with
  | zero => rfl
  | succ k ih =>
      have hstep : bergerRoundsGo n (k + 1) l =
          bergerRoundPairs l n :: bergerRoundsGo n k (bergerRotate l) := rfl
      rw [hstep, ih (bergerRotate l), List.range_succ_eq_map, List.map_cons, List.map_map]
      congr 1

theorem bergerSchedule_even_eq (n : Nat) (hn : 2 ≤ n) (he : n % 2 = 0) :
    bergerSchedule (List.range n) =
      (List.range (n - 1)).map (fun r => (List.range (n / 2)).map (bergerPairFn n r)) := by
  unfold bergerSchedule
  have hifc : ¬ ((List.range n).length % 2 = 1) := by
    rw [List.length_range]
    omega
  simp only [hifc, if_false]
  have hlen : ((List.range n).map some).length = n := by
    rw [List.length_map, List.length_range]
  rw [hlen, bergerRoundsGo_eq]
  apply List.map_congr_left
  intro t _
  exact bergerRoundPairs_iter n hn t

theorem my_countP_flatten (L : List (List γ)) (p : γ → Bool) :
    (L.flatten).countP p = (L.map (List.countP p)).sum := by
  induction L with
  | nil => rfl
  | cons a t ih =>
      rw [List.flatten_cons, List.countP_append, List.map_cons, List.sum_cons, ih]

theorem my_countP_range_zero (p : Nat → Bool) (k : Nat) (h : ∀ i, i < k → p i = false) :
    (List.range k).countP p = 0 := by
  rw [List.countP_eq_zero]
  intro a ha
  rw [h a (List.mem_range.mp ha)]
  simp

theorem my_countP_range_one (p : Nat → Bool) (k i0 : Nat) (hi0 : i0 < k) (hp : p i0 = true)
    (hu : ∀ i, i < k → p i = true → i = i0) : (List.range k).countP p = 1 := by
  induction k with
  | zero => omega
  | succ k ih =>
      rw [List.range_succ, List.countP_append]
      by_cases hk : i0 = k
      · subst hk
        have h0 : (List.range i0).countP p = 0 := by
          apply my_countP_range_zero
          intro i hi
          cases hpi : p i with
          | false => rfl
          | true =>
              have := hu i (by omega) hpi
              omega
        rw [h0]
        simp [hp]
      · have hi0k : i0 < k := by omega
        have hk0 : p k = false := by
          cases hpk : p k with
          | false => rfl
          | true => exact absurd (hu k (by omega) hpk).symm hk
        rw [ih hi0k (fun i hi hpi => hu i (by omega) hpi)]
        simp [hk0]

theorem my_sum_map_range_one (c : Nat → Nat) (k r0 : Nat) (hr0 : r0 < k) (hc : c r0 = 1)
    (hz : ∀ r, r < k → r ≠ r0 → c r = 0) : ((List.range k).map c).sum = 1 := by
  induction k with
  | zero => omega
  | succ k ih =>
      rw [List.range_succ, List.map_append, List.sum_append]
      by_cases hk : r0 = k
      · subst hk
        have h0 : ((List.range r0).map c).sum = 0 := by
          rw [List.sum_eq_zero]
          intro x hx
          rcases List.mem_map.mp hx with ⟨r, hr, rfl⟩
          have hrlt := List.mem_range.mp hr
          exact hz r (by omega) (by omega)
        rw [h0]
        simp [hc]
      · have hr0k : r0 < k := by omega
        rw [ih hr0k (fun r hr hne => hz r (by omega) hne)]
        have hck : c k = 0 := hz k (by omega) (by omega)
        simp [hck]

theorem zmod_two_mul_half (m : Nat) (hm : m % 2 = 1) :
    (2 : ZMod m) * (((m + 1) / 2 : Nat) : ZMod m) = 1 := by
  have h2 : 2 ∣ m + 1 := by omega
  have hmul : (2 * ((m + 1) / 2) : Nat) = m + 1 := Nat.mul_div_cancel' h2
  calc (2 : ZMod m) * (((m + 1) / 2 : Nat) : ZMod m)
      = (((2 * ((m + 1) / 2)) : Nat) : ZMod m) := by push_cast; ring
    _ = ((m + 1 : Nat) : ZMod m) := by rw [hmul]
    _ = 1 := by push_cast [ZMod.natCast_self]; ring

theorem zmod_double_inj (m : Nat) (hm : m % 2 = 1) (x y : ZMod m)
    (h : 2 * x = 2 * y) : x = y := by
  have hh := zmod_two_mul_half m hm
  calc x = 1 * x := (one_mul x).symm
    _ = ((2 : ZMod m) * (((m + 1) / 2 : Nat) : ZMod m)) * x := by rw [hh]
    _ = (((m + 1) / 2 : Nat) : ZMod m) * (2 * x) := by ring
    _ = (((m + 1) / 2 : Nat) : ZMod m) * (2 * y) := by rw [h]
    _ = ((2 : ZMod m) * (((m + 1) / 2 : Nat) : ZMod m)) * y := by ring
    _ = y := by rw [hh]; ring

theorem eq_of_pred_cast_eq (m x y : Nat) (hx1 : 1 ≤ x) (hx2 : x ≤ m) (hy1 : 1 ≤ y)
    (hy2 : y ≤ m)
    (h : ((x - 1 : Nat) : ZMod m) = ((y - 1 : Nat) : ZMod m)) : x = y := by
  haveI : NeZero m := ⟨by omega⟩
  have hv := congrArg ZMod.val h
  rw [ZMod.val_natCast, ZMod.val_natCast, Nat.mod_eq_of_lt (by omega),
    Nat.mod_eq_of_lt (by omega)] at hv
  omega

theorem nat_eq_of_cast_eq (m r rp : Nat) (hr : r < m) (hrp : rp < m)
    (h : ((r : Nat) : ZMod m) = ((rp : Nat) : ZMod m)) : r = rp := by
  haveI : NeZero m := ⟨by omega⟩
  have hv := congrArg ZMod.val h
  rw [ZMod.val_natCast, ZMod.val_natCast, Nat.mod_eq_of_lt hr, Nat.mod_eq_of_lt hrp] at hv
  exact hv

theorem cast_pred (m i : Nat) (hi : 1 ≤ i) :
    ((i - 1 : Nat) : ZMod m) = (i : ZMod m) - 1 := by
  rw [Nat.cast_sub hi]
  push_cast
  ring

theorem cast_n2i (n i : Nat) (hn : 2 ≤ n) (hi : i ≤ n - 2) :
    ((n - 2 - i : Nat) : ZMod (n - 1)) = -1 - (i : ZMod (n - 1)) := by
  rw [Nat.cast_sub hi]
  have h2 : ((n - 2 : Nat) : ZMod (n - 1)) = -1 := by
    have h3 : (n - 2 : Nat) = (n - 1) - 1 := by omega
    rw [h3, Nat.cast_sub (by omega : 1 ≤ n - 1), ZMod.natCast_self]
    push_cast
    ring
  rw [h2]

theorem bergerPairFn_zero (n r : Nat) :
    bergerPairFn n r 0 = (0, bergerEntry n r (n - 1)) := by
  rfl

theorem berger_case_zero (n : Nat) (hn : 2 ≤ n) (c : Nat) (hc1 : 1 ≤ c) (hc : c < n) :
    ∃ r0, r0 < n - 1 ∧ bergerEntry n r0 (n - 1) = c ∧
      ∀ r, r < n - 1 → bergerEntry n r (n - 1) = c → r = r0 := by
  haveI : NeZero (n - 1) := ⟨by omega⟩
  set r0 : Nat := ((-1 : ZMod (n - 1)) - ((c - 1 : Nat) : ZMod (n - 1))).val with hr0def
  have hr0lt : r0 < n - 1 := ZMod.val_lt _
  have hr0cast : ((r0 : Nat) : ZMod (n - 1)) = -1 - ((c - 1 : Nat) : ZMod (n - 1)) := by
    rw [hr0def]
    exact zmod_cast_val _ (by omega) _
  have hn2 : ((n - 2 : Nat) : ZMod (n - 1)) = -1 := by
    simpa using cast_n2i n 0 hn (by omega)
  have hidx : (n - 1 - 1 : Nat) = n - 2 := by omega
  refine ⟨r0, hr0lt, ?_, ?_⟩
  · apply eq_of_pred_cast_eq (n - 1) _ c (bergerEntry_pos n r0 (n - 1) (by omega))
      (bergerEntry_le n r0 (n - 1) hn (by omega)) hc1 (by omega)
    have h1 := bergerEntry_cast n r0 (n - 1) hn (by omega)
    rw [hidx, hn2, hr0cast] at h1
    rw [h1]
    ring
  · intro r hr hE
    apply nat_eq_of_cast_eq (n - 1) r r0 hr hr0lt
    have h1 := bergerEntry_cast n r (n - 1) hn (by omega)
    rw [hidx, hn2, hE] at h1
    rw [hr0cast, h1]
    ring

theorem berger_pair_unique (n : Nat) (hn : 2 ≤ n) (he : n % 2 = 0) (a b : Nat)
    (ha : a < n) (hb : b < n) (hab : a ≠ b) :
    ∃ r0 i0, r0 < n - 1 ∧ i0 < n / 2 ∧ PairEq a b (bergerPairFn n r0 i0) ∧
      ∀ r i, r < n - 1 → i < n / 2 → PairEq a b (bergerPairFn n r i) → r = r0 ∧ i = i0 := by
  haveI : NeZero (n - 1) := ⟨by omega⟩
  have hmodd : (n - 1) % 2 = 1 := by omega
  have hcomp : ∀ r i, 1 ≤ i → i < n / 2 →
      ((bergerEntry n r i - 1 : Nat) : ZMod (n - 1)) =
        ((i : Nat) : ZMod (n - 1)) - 1 - ((r : Nat) : ZMod (n - 1)) ∧
      ((bergerEntry n r (n - 1 - i) - 1 : Nat) : ZMod (n - 1)) =
        -1 - ((i : Nat) : ZMod (n - 1)) - ((r : Nat) : ZMod (n - 1)) := by
    intro r i hi1 hi2
    constructor
    · have h1 := bergerEntry_cast n r i hn hi1
      rw [cast_pred (n - 1) i hi1] at h1
      exact h1
    · have hj1 : 1 ≤ n - 1 - i := by omega
      have h1 := bergerEntry_cast n r (n - 1 - i) hn hj1
      have hidx : (n - 1 - i - 1 : Nat) = n - 2 - i := by omega
      rw [hidx, cast_n2i n i hn (by omega)] at h1
      exact h1
  by_cases ha0 : a = 0
  · have hb1 : 1 ≤ b := by omega
    obtain ⟨r0, hr0lt, hEc, huniq⟩ := berger_case_zero n hn b hb1 hb
    refine ⟨r0, 0, hr0lt, by omega, ?_, ?_⟩
    · rw [bergerPairFn_zero, hEc]
      exact Or.inl ⟨ha0.symm, rfl⟩
    · intro r i hr hi hP
      have hi0 : i = 0 := by
        by_contra hi0ne
        have hi1 : 1 ≤ i := by omega
        have hf1 : 1 ≤ bergerEntry n r i := bergerEntry_pos n r i hi1
        have hf2 : 1 ≤ bergerEntry n r (n - 1 - i) := bergerEntry_pos n r (n - 1 - i) (by omega)
        have hPc : (bergerEntry n r i = a ∧ bergerEntry n r (n - 1 - i) = b) ∨
            (bergerEntry n r i = b ∧ bergerEntry n r (n - 1 - i) = a) := hP
        rcases hPc with ⟨h1, _⟩ | ⟨_, h2⟩
        · omega
        · omega
      subst hi0
      rw [bergerPairFn_zero] at hP
      have hPc : ((0 : Nat) = a ∧ bergerEntry n r (n - 1) = b) ∨
          ((0 : Nat) = b ∧ bergerEntry n r (n - 1) = a) := hP
      rcases hPc with ⟨_, h2⟩ | ⟨h1, _⟩
      · exact ⟨huniq r hr h2, rfl⟩
      · omega
  · by_cases hb0 : b = 0
    · have ha1 : 1 ≤ a := by omega
      obtain ⟨r0, hr0lt, hEc, huniq⟩ := berger_case_zero n hn a ha1 ha
      refine ⟨r0, 0, hr0lt, by omega, ?_, ?_⟩
      · rw [bergerPairFn_zero, hEc]
        exact Or.inr ⟨hb0.symm, rfl⟩
      · intro r i hr hi hP
        have hi0 : i = 0 := by
          by_contra hi0ne
          have hi1 : 1 ≤ i := by omega
          have hf1 : 1 ≤ bergerEntry n r i := bergerEntry_pos n r i hi1
          have hf2 : 1 ≤ bergerEntry n r (n - 1 - i) := bergerEntry_pos n r (n - 1 - i) (by omega)
          have hPc : (bergerEntry n r i = a ∧ bergerEntry n r (n - 1 - i) = b) ∨
              (bergerEntry n r i = b ∧ bergerEntry n r (n - 1 - i) = a) := hP
          rcases hPc with ⟨_, h2⟩ | ⟨h1, _⟩
          · omega
          · omega
        subst hi0
        rw [bergerPairFn_zero] at hP
        have hPc : ((0 : Nat) = a ∧ bergerEntry n r (n - 1) = b) ∨
            ((0 : Nat) = b ∧ bergerEntry n r (n - 1) = a) := hP
        rcases hPc with ⟨h1, _⟩ | ⟨_, h2⟩
        · omega
        · exact ⟨huniq r hr h2, rfl⟩
    · -- both competitors are rotating seats
      have ha1 : 1 ≤ a := by omega
      have hb1 : 1 ≤ b := by omega
      set u : ZMod (n - 1) := ((a - 1 : Nat) : ZMod (n - 1)) with hudef
      set v : ZMod (n - 1) := ((b - 1 : Nat) : ZMod (n - 1)) with hvdef
      have huv : u ≠ v := by
        intro hcon
        exact hab (eq_of_pred_cast_eq (n - 1) a b ha1 (by omega) hb1 (by omega) hcon)
      set halfc : ZMod (n - 1) := (((n - 1 + 1) / 2 : Nat) : ZMod (n - 1)) with hhdef
      have h2h : (2 : ZMod (n - 1)) * halfc = 1 := zmod_two_mul_half (n - 1) hmodd
      set x : ZMod (n - 1) := halfc * (u - v) with hxdef
      have h2x : 2 * x = u - v := by
        rw [hxdef]
        calc 2 * (halfc * (u - v)) = (2 * halfc) * (u - v) := by ring
          _ = u - v := by rw [h2h]; ring
      have hx0 : x ≠ 0 := by
        intro hcon
        apply huv
        have hz : u - v = 0 := by rw [← h2x, hcon]; ring
        exact sub_eq_zero.mp hz
      obtain ⟨r0, hr0def⟩ : ∃ k : Nat, k = (halfc * (-(u + v)) - 1).val := ⟨_, rfl⟩
      have hr0lt : r0 < n - 1 := by
        rw [hr0def]
        exact ZMod.val_lt _
      have hr0cast : ((r0 : Nat) : ZMod (n - 1)) = halfc * (-(u + v)) - 1 := by
        rw [hr0def]
        exact zmod_cast_val _ (by omega) _
      obtain ⟨xv, hxvdef⟩ : ∃ k : Nat, k = x.val := ⟨_, rfl⟩
      have hxvlt : xv < n - 1 := by
        rw [hxvdef]
        exact ZMod.val_lt x
      have hxv1 : 1 ≤ xv := by
        rcases Nat.eq_zero_or_pos xv with h0 | h0
        · exfalso
          apply hx0
          apply (ZMod.val_eq_zero x).mp
          rw [← hxvdef]
          exact h0
        · exact h0
      have hxcast : ((xv : Nat) : ZMod (n - 1)) = x := by
        rw [hxvdef]
        exact zmod_cast_val _ (by omega) x
      have hmxcast : (((n - 1 - xv) : Nat) : ZMod (n - 1)) = -x := by
        rw [Nat.cast_sub (by omega : xv ≤ n - 1), ZMod.natCast_self, hxcast]
        ring
      obtain ⟨i0, hi0def⟩ : ∃ k : Nat, k = if xv ≤ n / 2 - 1 then xv else n - 1 - xv :=
        ⟨_, rfl⟩
      have hn2p : 1 ≤ n / 2 := by omega
      have hi0bounds : 1 ≤ i0 ∧ i0 ≤ n / 2 - 1 := by
        rw [hi0def]
        by_cases hcc : xv ≤ n / 2 - 1
        · rw [if_pos hcc]
          omega
        · rw [if_neg hcc]
          omega
      obtain ⟨hi01, hi02⟩ := hi0bounds
      refine ⟨r0, i0, hr0lt, by omega, ?_, ?_⟩
      · -- existence
        obtain ⟨hc1, hc2⟩ := hcomp r0 i0 hi01 (by omega)
        by_cases hbr : xv ≤ n / 2 - 1
        · have hic : ((i0 : Nat) : ZMod (n - 1)) = x := by
            rw [hi0def, if_pos hbr]
            exact hxcast
          have he1 : bergerEntry n r0 i0 = a := by
            apply eq_of_pred_cast_eq (n - 1) _ a (bergerEntry_pos n r0 i0 hi01)
              (bergerEntry_le n r0 i0 hn hi01) ha1 (by omega)
            rw [hc1, hic, hr0cast, ← hudef, hxdef]
            calc halfc * (u - v) - 1 - (halfc * (-(u + v)) - 1) = (2 * halfc) * u := by ring
              _ = u := by rw [h2h]; ring
          have he2 : bergerEntry n r0 (n - 1 - i0) = b := by
            apply eq_of_pred_cast_eq (n - 1) _ b (bergerEntry_pos n r0 (n - 1 - i0) (by omega))
              (bergerEntry_le n r0 (n - 1 - i0) hn (by omega)) hb1 (by omega)
            rw [hc2, hic, hr0cast, ← hvdef, hxdef]
            calc -1 - halfc * (u - v) - (halfc * (-(u + v)) - 1) = (2 * halfc) * v := by ring
              _ = v := by rw [h2h]; ring
          exact Or.inl ⟨he1, he2⟩
        · have hic : ((i0 : Nat) : ZMod (n - 1)) = -x := by
            rw [hi0def, if_neg hbr]
            exact hmxcast
          have he1 : bergerEntry n r0 i0 = b := by
            apply eq_of_pred_cast_eq (n - 1) _ b (bergerEntry_pos n r0 i0 hi01)
              (bergerEntry_le n r0 i0 hn hi01) hb1 (by omega)
            rw [hc1, hic, hr0cast, ← hvdef, hxdef]
            calc -(halfc * (u - v)) - 1 - (halfc * (-(u + v)) - 1) = (2 * halfc) * v := by ring
              _ = v := by rw [h2h]; ring
          have he2 : bergerEntry n r0 (n - 1 - i0) = a := by
            apply eq_of_pred_cast_eq (n - 1) _ a (bergerEntry_pos n r0 (n - 1 - i0) (by omega))
              (bergerEntry_le n r0 (n - 1 - i0) hn (by omega)) ha1 (by omega)
            rw [hc2, hic, hr0cast, ← hudef, hxdef]
            calc -1 - -(halfc * (u - v)) - (halfc * (-(u + v)) - 1) = (2 * halfc) * u := by ring
              _ = u := by rw [h2h]; ring
          exact Or.inr ⟨he1, he2⟩
      · -- uniqueness
        intro r i hr hi hP
        have hi1 : 1 ≤ i := by
          by_contra h0
          have hiz : i = 0 := by omega
          subst hiz
          rw [bergerPairFn_zero] at hP
          have hPc : ((0 : Nat) = a ∧ bergerEntry n r (n - 1) = b) ∨
              ((0 : Nat) = b ∧ bergerEntry n r (n - 1) = a) := hP
          rcases hPc with ⟨h1, _⟩ | ⟨h1, _⟩
          · omega
          · omega
        obtain ⟨hc1, hc2⟩ := hcomp r i hi1 hi
        have hPc : (bergerEntry n r i = a ∧ bergerEntry n r (n - 1 - i) = b) ∨
            (bergerEntry n r i = b ∧ bergerEntry n r (n - 1 - i) = a) := hP
        rcases hPc with ⟨h1, h2⟩ | ⟨h1, h2⟩
        · have hu1 : ((i : Nat) : ZMod (n - 1)) - 1 - ((r : Nat) : ZMod (n - 1)) = u := by
            rw [← hc1, h1, ← hudef]
          have hv1 : -1 - ((i : Nat) : ZMod (n - 1)) - ((r : Nat) : ZMod (n - 1)) = v := by
            rw [← hc2, h2, ← hvdef]
          have hsum : u + v = -2 - 2 * ((r : Nat) : ZMod (n - 1)) := by
            rw [← hu1, ← hv1]
            ring
          have hrc : ((r : Nat) : ZMod (n - 1)) = halfc * (-(u + v)) - 1 := by
            apply zmod_double_inj (n - 1) hmodd
            have hrhs : 2 * (halfc * (-(u + v)) - 1) = -(u + v) - 2 := by
              calc 2 * (halfc * (-(u + v)) - 1) = (2 * halfc) * (-(u + v)) - 2 := by ring
                _ = -(u + v) - 2 := by rw [h2h]; ring
            rw [hrhs, hsum]
            ring
          have hr_eq : r = r0 := nat_eq_of_cast_eq (n - 1) r r0 hr hr0lt (by rw [hrc, hr0cast])
          have hdiff : u - v = 2 * ((i : Nat) : ZMod (n - 1)) := by
            rw [← hu1, ← hv1]
            ring
          have hic : ((i : Nat) : ZMod (n - 1)) = x := by
            apply zmod_double_inj (n - 1) hmodd
            rw [h2x, hdiff]
          have hixv : i = xv :=
            nat_eq_of_cast_eq (n - 1) i xv (by omega) hxvlt (by rw [hic, hxcast])
          have hi0v : i0 = xv := by
            rw [hi0def, if_pos (show xv ≤ n / 2 - 1 by omega)]
          exact ⟨hr_eq, by omega⟩
        · have hv1 : ((i : Nat) : ZMod (n - 1)) - 1 - ((r : Nat) : ZMod (n - 1)) = v := by
            rw [← hc1, h1, ← hvdef]
          have hu1 : -1 - ((i : Nat) : ZMod (n - 1)) - ((r : Nat) : ZMod (n - 1)) = u := by
            rw [← hc2, h2, ← hudef]
          have hsum : u + v = -2 - 2 * ((r : Nat) : ZMod (n - 1)) := by
            rw [← hu1, ← hv1]
            ring
          have hrc : ((r : Nat) : ZMod (n - 1)) = halfc * (-(u + v)) - 1 := by
            apply zmod_double_inj (n - 1) hmodd
            have hrhs : 2 * (halfc * (-(u + v)) - 1) = -(u + v) - 2 := by
              calc 2 * (halfc * (-(u + v)) - 1) = (2 * halfc) * (-(u + v)) - 2 := by ring
                _ = -(u + v) - 2 := by rw [h2h]; ring
            rw [hrhs, hsum]
            ring
          have hr_eq : r = r0 := nat_eq_of_cast_eq (n - 1) r r0 hr hr0lt (by rw [hrc, hr0cast])
          have hdiff : v - u = 2 * ((i : Nat) : ZMod (n - 1)) := by
            rw [← hu1, ← hv1]
            ring
          have hic : ((i : Nat) : ZMod (n - 1)) = -x := by
            apply zmod_double_inj (n - 1) hmodd
            have h2xn : 2 * (-x) = v - u := by
              have hneg : 2 * (-x) = -(2 * x) := by ring
              rw [hneg, h2x]
              ring
            rw [h2xn, hdiff]
          have hixv : i = n - 1 - xv :=
            nat_eq_of_cast_eq (n - 1) i (n - 1 - xv) (by omega) (by omega)
              (by rw [hic, hmxcast])
          have hxbig : ¬ (xv ≤ n / 2 - 1) := by omega
          have hi0v : i0 = n - 1 - xv := by
            rw [hi0def, if_neg hxbig]
          exact ⟨hr_eq, by omega⟩

theorem my_countP_map (p : δ → Bool) (f : γ → δ) (l : List γ) :
    (l.map f).countP p = l.countP (fun z => p (f z)) := by
  induction l with
  | nil => rfl
  | cons a t ih =>
      rw [List.map_cons, List.countP_cons, List.countP_cons, ih]

/-- Claim C10: for every even competitor count n (competitors taken as
0, ..., n-1 — the generator never inspects competitor identity), the Berger
table produces exactly n - 1 rounds, each containing exactly n / 2 matches,
and across all rounds every unordered pair of distinct competitors appears in
exactly one match. -/
theorem claim_C10 (n : Nat) (he : n % 2 = 0) :
    (bergerSchedule (List.range n)).length = n - 1 ∧
    (∀ rd ∈ bergerSchedule (List.range n), rd.length = n / 2) ∧
    (∀ a b : Nat, a < n → b < n → a ≠ b →
      ((bergerSchedule (List.range n)).flatten).countP
        (fun pr => decide (PairEq a b pr)) = 1) := by
  by_cases hn : 2 ≤ n
  · refine ⟨?_, ?_, ?_⟩
    · rw [bergerSchedule_even_eq n hn he, List.length_map, List.length_range]
    · intro rd hrd
      rw [bergerSchedule_even_eq n hn he] at hrd
      rcases List.mem_map.mp hrd with ⟨r, _, rfl⟩
      rw [List.length_map, List.length_range]
    · intro a b ha hb hab
      obtain ⟨r0, i0, hr0, hi0, hP0, huniq⟩ := berger_pair_unique n hn he a b ha hb hab
      rw [bergerSchedule_even_eq n hn he, my_countP_flatten, List.map_map]
      have hc : ∀ r : Nat,
          (List.countP (fun pr => decide (PairEq a b pr)) ∘
            fun r => (List.range (n / 2)).map (bergerPairFn n r)) r =
          (List.range (n / 2)).countP (fun i => decide (PairEq a b (bergerPairFn n r i))) := by
        intro r
        simp only [Function.comp_apply]
        rw [my_countP_map]
      apply my_sum_map_range_one _ (n - 1) r0 hr0
      · rw [hc r0]
        apply my_countP_range_one _ (n / 2) i0 hi0 (by exact decide_eq_true hP0)
        intro i hi hq
        exact (huniq r0 i hr0 hi (of_decide_eq_true hq)).2
      · intro r hr hne
        rw [hc r]
        apply my_countP_range_zero
        intro i hi
        cases hq : decide (PairEq a b (bergerPairFn n r i)) with
        | false => rfl
        | true => exact absurd (huniq r i hr hi (of_decide_eq_true hq)).1 hne
  · have hn0 : n = 0 := by omega
    subst hn0
    refine ⟨rfl, ?_, ?_⟩
    · intro rd hrd
      simp [bergerSchedule, bergerRoundsGo] at hrd
    · intro a b ha hb hab
      omega

theorem claim_C10_witness :
    (bergerSchedule (List.range 4)).length = 3 ∧
    ((bergerSchedule (List.range 4)).flatten).countP
      (fun pr => decide (PairEq 0 1 pr)) = 1 := by
  have h := claim_C10 4 rfl
  exact ⟨h.1, h.2.2 0 1 (by omega) (by omega) (by omega)⟩
